import Mathlib

/-!
Shallow embedding of the OptiCut nesting core (src/app.py): the shape
catalog (`add_item`), the nesting engine (`solve_nesting`, which delegates
packing to a rectpack packer configured with `rotation=True` and
`sort_algo=SORT_AREA`), and the placement report. The packer itself is a
third-party dependency absent from src/; it is modelled from the spec
(§4.2) where marked.
-/

/-- The four shape kinds handled by `add_item` (the keys of `color_map`). -/
inductive Shape where
  | Rectangle
  | Square
  | Circle
  | Triangle
deriving DecidableEq, Repr

/-- The per-shape parameter dictionary passed to `add_item` (`dims`):
keys `w, h` for Rectangle/Square, `r` for Circle, `b, h` for Triangle. -/
inductive Dims where
  | rect (w h : ℚ)
  | circle (r : ℚ)
  | triangle (b h : ℚ)
deriving DecidableEq, Repr

/-- One demand unit as built by `add_item` (src/app.py lines 100-108):
bounding box `w × h`, exact `area`, rotation allowance and a cosmetic
color. The uuid token is modelled as a `Nat`. -/
structure Item where
  id : Nat
  type : Shape
  dims : Dims
  w : ℚ
  h : ℚ
  area : ℚ
  allow_rotation : Bool
  color : String
deriving DecidableEq, Repr

/-- The `color_map` lookup of `add_item`; the `'#666'` default is
unreachable because the shape enumeration is closed. -/
def colorMap : Shape → String
  | .Rectangle => "#3B82F6"
  | .Square => "#10B981"
  | .Circle => "#F59E0B"
  | .Triangle => "#8B5CF6"

/-- The bounding-box logic of `add_item` (src/app.py lines 89-98): derives
`(w, h, area)` from the shape kind and its parameter dictionary. `none`
models the exception a mismatched dictionary raises in Python. -/
def bboxAndArea : Shape → Dims → Option (ℚ × ℚ × ℚ)
  | .Rectangle, .rect w h => some (w, h, w * h)
  | .Square, .rect w h => some (w, h, w * h)
  | .Circle, .circle r => some (r * 2, r * 2, 3.14159 * r ^ 2)
  | .Triangle, .triangle b h => some (b, h, 0.5 * b * h)
  | _, _ => none

/-- `add_item` (src/app.py lines 81-110): builds `qty` items sharing the
shape, dims, rotation flag and color, each with a fresh uuid (modelled by
`uids`). The bounding-box logic is hoisted out of the loop, which is
faithful because it depends only on the loop-invariant `shape` and
`dims`. -/
def add_item (shape : Shape) (dims : Dims) (qty : Nat) (rot : Bool)
    (uids : Nat → Nat) : Option (List Item) :=
  (bboxAndArea shape dims).map (fun t =>
    (List.range qty).map (fun i =>
      { id := uids i, type := shape, dims := dims,
        w := t.1, h := t.2.1, area := t.2.2,
        allow_rotation := rot, color := colorMap shape }))

/-- An axis-aligned rectangle, used as a free region of the board. -/
structure FreeRect where
  x : ℚ
  y : ℚ
  w : ℚ
  h : ℚ
deriving DecidableEq, Repr

/-- A rectangle placed by the packer, tagged with the demand id `rid`. -/
structure PlacedRect where
  x : ℚ
  y : ℚ
  w : ℚ
  h : ℚ
  rid : Nat
deriving DecidableEq, Repr

/-- Modelled from the spec: §4.2 step 1 — insertion step of the stable
descending-bounding-box-area sort (the `SORT_AREA` configuration of the
rectpack packer built in `solve_nesting`; the packer is a third-party
dependency absent from src/). An item passes over the strictly larger
entries and lands before the first entry whose area is not larger, so
equal-area items keep their input order. -/
def insertByArea (it : Item) : List Item → List Item
  | [] => [it]
  | x :: xs =>
    if it.w * it.h < x.w * x.h then x :: insertByArea it xs
    else it :: x :: xs

/-- Modelled from the spec: §4.2 step 1 — the stable descending-area sort
of the demand snapshot. -/
def sortAreaDesc (items : List Item) : List Item :=
  items.foldr insertByArea []

/-- Modelled from the spec: §4.2 step 2 — scan the free regions for one
whose width and height admit a `w × h` box (first-fit in scan order, the
simplification the spec sanctions); returns it with the remaining
regions. -/
def findRegion (w h : ℚ) : List FreeRect → Option (FreeRect × List FreeRect)
  | [] => none
  | f :: fs =>
    if w ≤ f.w ∧ h ≤ f.h then some (f, fs)
    else
      match findRegion w h fs with
      | some (g, rest) => some (g, f :: rest)
      | none => none

/-- Modelled from the spec: §4.2 step 4 — the two complementary rectangles
remaining after subtracting a `pw × ph` box placed at the region's
origin. -/
def splitFree (f : FreeRect) (pw ph : ℚ) : List FreeRect :=
  [⟨f.x + pw, f.y, f.w - pw, ph⟩, ⟨f.x, f.y + ph, f.w, f.h - ph⟩]

/-- Modelled from the spec: §4.2 steps 3-4 — one placement attempt:
natural orientation first, then the swapped orientation when the
packer-level `rotation` flag is set. The flag is the global
`rotation=True` that `solve_nesting` hands to `newPacker`; the per-item
`allow_rotation` never reaches the packer, since `add_rect` receives only
width, height and id (src/app.py line 121). -/
def place1 (rotation : Bool) (it : Item) (free : List FreeRect) :
    Option (PlacedRect × List FreeRect) :=
  match findRegion it.w it.h free with
  | some (f, rest) =>
      some (⟨f.x, f.y, it.w, it.h, it.id⟩, splitFree f it.w it.h ++ rest)
  | none =>
      if rotation then
        match findRegion it.h it.w free with
        | some (f, rest) =>
            some (⟨f.x, f.y, it.h, it.w, it.id⟩, splitFree f it.h it.w ++ rest)
        | none => none
      else none

/-- Modelled from the spec: §4.2 — the packing loop: each sorted item is
attempted once; an item no region admits is skipped (unplaced, an
expected outcome, not an error). -/
def packLoop (rotation : Bool) : List Item → List FreeRect → List PlacedRect
  | [], _ => []
  | it :: its, free =>
    match place1 rotation it free with
    | some (p, free') => p :: packLoop rotation its free'
    | none => packLoop rotation its free

/-- Modelled from the spec: the packer `solve_nesting` builds with
`newPacker(mode=PackingMode.Offline, rotation=True, sort_algo=SORT_AREA)`
and one `bin_w × bin_h` bin (src/app.py lines 117-124): sort the demand,
then pack into free regions starting from the whole board. Returns the
placed rectangles of the single bin, in placement order. -/
def pack (bin_w bin_h : ℚ) (rotation : Bool) (items : List Item) :
    List PlacedRect :=
  packLoop rotation (sortAreaDesc items) [⟨0, 0, bin_w, bin_h⟩]

/-- One entry of `packed_results` (src/app.py lines 145-155). -/
structure Record where
  id : Nat
  type : Shape
  x : ℚ
  y : ℚ
  w_box : ℚ
  h_box : ℚ
  rotation : Nat
  color : String
  dims : Dims
deriving DecidableEq, Repr

/-- The dictionary `solve_nesting` returns (src/app.py lines 158-164). -/
structure Report where
  placed : List Record
  unplaced_count : ℤ
  efficiency : ℚ
  waste : ℚ
  time : ℚ
deriving DecidableEq, Repr

/-- The Python exception that escapes `solve_nesting`: the expression
`used_area / (bin_w * bin_h)` raises `ZeroDivisionError` when the board
area is zero. -/
inductive SolveError where
  | zeroDivisionError
deriving DecidableEq, Repr

/-- One `packed_results.append({...})` entry (src/app.py lines 140-155):
rotation is detected by comparing the original bounding-box width with
the placed width (`is_rotated = original['w'] != rect.width`), and is
exported as 90 or 0 degrees. -/
def mkRecord (orig : Item) (r : PlacedRect) : Record :=
  { id := r.rid, type := orig.type, x := r.x, y := r.y,
    w_box := r.w, h_box := r.h,
    rotation := if orig.w ≠ r.w then 90 else 0,
    color := orig.color, dims := orig.dims }

/-- The result loop of `solve_nesting` (src/app.py lines 127-156): for
each packed rectangle, look up the first demand item with the same id; on
a hit, append a placement record, add the id to the `placed_ids` set
(modelled as a duplicate-free list) and accumulate the item's exact area.
Returns `(packed_results, placed_ids, used_area)`. -/
def buildResults (items : List Item) :
    List PlacedRect → List Nat → List Record × List Nat × ℚ
  | [], ids => ([], ids, 0)
  | r :: rs, ids =>
    match List.find? (fun it => it.id == r.rid) items with
    | none => buildResults items rs ids
    | some orig =>
      let ids' := if ids.contains r.rid then ids else ids ++ [r.rid]
      let rest := buildResults items rs ids'
      (mkRecord orig r :: rest.1, rest.2.1, rest.2.2 + orig.area)

/-- `solve_nesting` (src/app.py lines 112-164). The packer is the
spec-modelled `pack` with the hard-coded packer-level `rotation := true`.
`elapsed` models the wall-clock measurement `time.time() - start_time`,
an input supplied by the caller's clock. The `if len(packer) > 0` guard
and `packer[0]` of lines 131-132 are transparent here: exactly one bin is
added, an unused bin holds no rectangles, and `pack` already returns that
single bin's placements. Building the returned dictionary evaluates
`used_area / (bin_w * bin_h)`, which raises `ZeroDivisionError` on a
zero-area board, after packing has already run. -/
def solve_nesting (bin_w bin_h : ℚ) (items : List Item) (elapsed : ℚ) :
    Except SolveError Report :=
  let rects := pack bin_w bin_h true items
  let res := buildResults items rects []
  if bin_w * bin_h = 0 then Except.error SolveError.zeroDivisionError
  else Except.ok
    { placed := res.1,
      unplaced_count := (items.length : ℤ) - res.2.1.length,
      efficiency := res.2.2 / (bin_w * bin_h) * 100,
      waste := 100 - res.2.2 / (bin_w * bin_h) * 100,
      time := elapsed }

/-- The axis-aligned box of a placement record. -/
def Record.box (rec : Record) : FreeRect := ⟨rec.x, rec.y, rec.w_box, rec.h_box⟩

/-- The axis-aligned box of a packed rectangle. -/
def PlacedRect.box (p : PlacedRect) : FreeRect := ⟨p.x, p.y, p.w, p.h⟩

/-- Intersection area of two axis-aligned rectangles. -/
def overlapArea (a b : FreeRect) : ℚ :=
  max 0 (min (a.x + a.w) (b.x + b.w) - max a.x b.x) *
  max 0 (min (a.y + a.h) (b.y + b.h) - max a.y b.y)

/-- Containment of a rectangle in the `W × H` board. -/
def FreeRect.inBoard (W H : ℚ) (r : FreeRect) : Prop :=
  0 ≤ r.x ∧ 0 ≤ r.y ∧ r.x + r.w ≤ W ∧ r.y + r.h ≤ H

/-- Interval-wise separation of two rectangles (stronger than zero
intersection area). -/
def FreeRect.separated (a b : FreeRect) : Prop :=
  a.x + a.w ≤ b.x ∨ b.x + b.w ≤ a.x ∨ a.y + a.h ≤ b.y ∨ b.y + b.h ≤ a.y

/-- Sub-rectangle relation. -/
def FreeRect.subOf (a b : FreeRect) : Prop :=
  b.x ≤ a.x ∧ b.y ≤ a.y ∧ a.x + a.w ≤ b.x + b.w ∧ a.y + a.h ≤ b.y + b.h

/-! Geometry lemmas about rectangles, free regions and splitting. -/

theorem FreeRect.separated_symm {a b : FreeRect} (h : a.separated b) :
    b.separated a := by
  rcases h with h | h | h | h
  · exact Or.inr (Or.inl h)
  · exact Or.inl h
  · exact Or.inr (Or.inr (Or.inr h))
  · exact Or.inr (Or.inr (Or.inl h))

theorem FreeRect.separated_of_subOf {a b c : FreeRect} (hab : a.subOf b)
    (hbc : b.separated c) : a.separated c := by
  obtain ⟨h1, h2, h3, h4⟩ := hab
  rcases hbc with h | h | h | h
  · exact Or.inl (le_trans h3 h)
  · exact Or.inr (Or.inl (le_trans h h1))
  · exact Or.inr (Or.inr (Or.inl (le_trans h4 h)))
  · exact Or.inr (Or.inr (Or.inr (le_trans h h2)))

theorem FreeRect.inBoard_of_subOf {W H : ℚ} {a b : FreeRect} (hab : a.subOf b)
    (hb : b.inBoard W H) : a.inBoard W H := by
  obtain ⟨h1, h2, h3, h4⟩ := hab
  obtain ⟨k1, k2, k3, k4⟩ := hb
  exact ⟨le_trans k1 h1, le_trans k2 h2, le_trans h3 k3, le_trans h4 k4⟩

theorem overlapArea_eq_zero_of_separated {a b : FreeRect} (h : a.separated b) :
    overlapArea a b = 0 := by
  unfold overlapArea
  rcases h with h | h | h | h
  · have hx : min (a.x + a.w) (b.x + b.w) - max a.x b.x ≤ 0 := by
      have h1 := min_le_left (a.x + a.w) (b.x + b.w)
      have h2 := le_max_right a.x b.x
      linarith
    rw [max_eq_left hx, zero_mul]
  · have hx : min (a.x + a.w) (b.x + b.w) - max a.x b.x ≤ 0 := by
      have h1 := min_le_right (a.x + a.w) (b.x + b.w)
      have h2 := le_max_left a.x b.x
      linarith
    rw [max_eq_left hx, zero_mul]
  · have hy : min (a.y + a.h) (b.y + b.h) - max a.y b.y ≤ 0 := by
      have h1 := min_le_left (a.y + a.h) (b.y + b.h)
      have h2 := le_max_right a.y b.y
      linarith
    rw [max_eq_left hy, mul_zero]
  · have hy : min (a.y + a.h) (b.y + b.h) - max a.y b.y ≤ 0 := by
      have h1 := min_le_right (a.y + a.h) (b.y + b.h)
      have h2 := le_max_left a.y b.y
      linarith
    rw [max_eq_left hy, mul_zero]

theorem splitFree_subOf {f : FreeRect} {pw ph : ℚ} (h0w : 0 ≤ pw) (h0h : 0 ≤ ph)
    (hw : pw ≤ f.w) (hh : ph ≤ f.h) :
    ∀ g ∈ splitFree f pw ph, g.subOf f := by
  intro g hg
  simp only [splitFree, List.mem_cons, List.mem_singleton, List.not_mem_nil,
    or_false] at hg
  rcases hg with rfl | rfl
  · exact ⟨by simp; linarith, by simp, by simp, by simp; linarith⟩
  · exact ⟨by simp, by simp; linarith, by simp, by simp⟩

theorem splitFree_separated_placed {f : FreeRect} {pw ph : ℚ} :
    ∀ g ∈ splitFree f pw ph, g.separated ⟨f.x, f.y, pw, ph⟩ := by
  intro g hg
  simp only [splitFree, List.mem_cons, List.mem_singleton, List.not_mem_nil,
    or_false] at hg
  rcases hg with rfl | rfl
  · exact Or.inr (Or.inl (by simp))
  · exact Or.inr (Or.inr (Or.inr (by simp)))

theorem splitFree_pairwise (f : FreeRect) (pw ph : ℚ) :
    (splitFree f pw ph).Pairwise FreeRect.separated := by
  unfold splitFree
  refine List.Pairwise.cons ?_ (by simp)
  intro g hg
  rw [List.mem_singleton] at hg
  subst hg
  exact Or.inr (Or.inr (Or.inl (by simp)))

theorem placedBox_subOf {f : FreeRect} {pw ph : ℚ} (hw : pw ≤ f.w) (hh : ph ≤ f.h) :
    FreeRect.subOf ⟨f.x, f.y, pw, ph⟩ f := by
  exact ⟨by simp, by simp, by simp [hw], by simp [hh]⟩

/-! Characterization of the region scan and of one placement attempt. -/

theorem findRegion_spec {w h : ℚ} {free rest : List FreeRect} {f : FreeRect}
    (hfind : findRegion w h free = some (f, rest)) :
    free.Perm (f :: rest) ∧ w ≤ f.w ∧ h ≤ f.h := by
  induction free generalizing rest with
  | nil => simp [findRegion] at hfind
  | cons g gs ih =>
    rw [findRegion] at hfind
    by_cases hc : w ≤ g.w ∧ h ≤ g.h
    · rw [if_pos hc] at hfind
      simp only [Option.some.injEq, Prod.mk.injEq] at hfind
      obtain ⟨rfl, rfl⟩ := hfind
      exact ⟨List.Perm.refl _, hc.1, hc.2⟩
    · rw [if_neg hc] at hfind
      cases hrec : findRegion w h gs with
      | none => rw [hrec] at hfind; exact absurd hfind (by simp)
      | some pr =>
        obtain ⟨g', rest'⟩ := pr
        rw [hrec] at hfind
        simp only [Option.some.injEq, Prod.mk.injEq] at hfind
        obtain ⟨rfl, rfl⟩ := hfind
        obtain ⟨hperm, hw, hh⟩ := ih hrec
        exact ⟨(hperm.cons g).trans (List.Perm.swap g' g rest'), hw, hh⟩

theorem place1_spec {rotation : Bool} {it : Item} {free free' : List FreeRect}
    {p : PlacedRect} (h : place1 rotation it free = some (p, free')) :
    ∃ f rest, free.Perm (f :: rest) ∧
      p.x = f.x ∧ p.y = f.y ∧ p.rid = it.id ∧
      ((p.w = it.w ∧ p.h = it.h) ∨ (p.w = it.h ∧ p.h = it.w)) ∧
      p.w ≤ f.w ∧ p.h ≤ f.h ∧
      free' = splitFree f p.w p.h ++ rest := by
  rw [place1] at h
  cases h1 : findRegion it.w it.h free with
  | some pr =>
    obtain ⟨f, rest⟩ := pr
    rw [h1] at h
    simp only [Option.some.injEq, Prod.mk.injEq] at h
    obtain ⟨h3, h4⟩ := h
    subst h3; subst h4
    obtain ⟨hperm, hw, hh⟩ := findRegion_spec h1
    exact ⟨f, rest, hperm, rfl, rfl, rfl, Or.inl ⟨rfl, rfl⟩, hw, hh, rfl⟩
  | none =>
    rw [h1] at h
    cases rotation with
    | false => exact absurd h (by simp)
    | true =>
      rw [if_pos rfl] at h
      cases h2 : findRegion it.h it.w free with
      | none => rw [h2] at h; exact absurd h (by simp)
      | some pr =>
        obtain ⟨f, rest⟩ := pr
        rw [h2] at h
        simp only [Option.some.injEq, Prod.mk.injEq] at h
        obtain ⟨h3, h4⟩ := h
        subst h3; subst h4
        obtain ⟨hperm, hw, hh⟩ := findRegion_spec h2
        exact ⟨f, rest, hperm, rfl, rfl, rfl, Or.inr ⟨rfl, rfl⟩, hw, hh, rfl⟩

theorem place1_dims_nonneg {rotation : Bool} {it : Item}
    {free free' : List FreeRect} {p : PlacedRect}
    (h0 : 0 ≤ it.w ∧ 0 ≤ it.h)
    (h : place1 rotation it free = some (p, free')) : 0 ≤ p.w ∧ 0 ≤ p.h := by
  obtain ⟨f, rest, -, -, -, -, hdim, -, -, -⟩ := place1_spec h
  rcases hdim with ⟨e1, e2⟩ | ⟨e1, e2⟩
  · rw [e1, e2]; exact h0
  · rw [e1, e2]; exact ⟨h0.2, h0.1⟩

theorem place1_pbox_subOf {rotation : Bool} {it : Item}
    {free free' : List FreeRect} {p : PlacedRect}
    (h : place1 rotation it free = some (p, free')) :
    ∃ f ∈ free, p.box.subOf f := by
  obtain ⟨f, rest, hperm, hx, hy, -, -, hwle, hhle, -⟩ := place1_spec h
  refine ⟨f, hperm.mem_iff.mpr (List.mem_cons_self f rest), ?_⟩
  have : p.box = ⟨f.x, f.y, p.w, p.h⟩ := by rw [PlacedRect.box, hx, hy]
  rw [this]
  exact placedBox_subOf hwle hhle

theorem place1_free_subOf {rotation : Bool} {it : Item}
    {free free' : List FreeRect} {p : PlacedRect}
    (h0 : 0 ≤ it.w ∧ 0 ≤ it.h)
    (h : place1 rotation it free = some (p, free')) :
    ∀ g ∈ free', ∃ f ∈ free, g.subOf f := by
  obtain ⟨f, rest, hperm, -, -, -, -, hwle, hhle, hfree'⟩ := place1_spec h
  obtain ⟨h0w, h0h⟩ := place1_dims_nonneg h0 h
  intro g hg
  rw [hfree'] at hg
  rcases List.mem_append.mp hg with hg1 | hg2
  · exact ⟨f, hperm.mem_iff.mpr (List.mem_cons_self f rest),
      splitFree_subOf h0w h0h hwle hhle g hg1⟩
  · exact ⟨g, hperm.mem_iff.mpr (List.mem_cons_of_mem f hg2),
      ⟨le_refl _, le_refl _, le_refl _, le_refl _⟩⟩

theorem place1_free_separated_p {rotation : Bool} {it : Item}
    {free free' : List FreeRect} {p : PlacedRect}
    (hpw : free.Pairwise FreeRect.separated)
    (h : place1 rotation it free = some (p, free')) :
    ∀ g ∈ free', g.separated p.box := by
  obtain ⟨f, rest, hperm, hx, hy, -, -, hwle, hhle, hfree'⟩ := place1_spec h
  have hpbox : p.box = ⟨f.x, f.y, p.w, p.h⟩ := by rw [PlacedRect.box, hx, hy]
  have hcons : (f :: rest).Pairwise FreeRect.separated :=
    (hperm.pairwise_iff (fun hab => FreeRect.separated_symm hab)).mp hpw
  intro g hg
  rw [hfree'] at hg
  rcases List.mem_append.mp hg with hg1 | hg2
  · rw [hpbox]
    exact splitFree_separated_placed g hg1
  · have hfg : f.separated g := (List.pairwise_cons.mp hcons).1 g hg2
    have hsub : p.box.subOf f := by rw [hpbox]; exact placedBox_subOf hwle hhle
    exact FreeRect.separated_symm (FreeRect.separated_of_subOf hsub hfg)

theorem place1_free_pairwise {rotation : Bool} {it : Item}
    {free free' : List FreeRect} {p : PlacedRect}
    (h0 : 0 ≤ it.w ∧ 0 ≤ it.h)
    (hpw : free.Pairwise FreeRect.separated)
    (h : place1 rotation it free = some (p, free')) :
    free'.Pairwise FreeRect.separated := by
  obtain ⟨f, rest, hperm, -, -, -, -, hwle, hhle, hfree'⟩ := place1_spec h
  obtain ⟨h0w, h0h⟩ := place1_dims_nonneg h0 h
  have hcons : (f :: rest).Pairwise FreeRect.separated :=
    (hperm.pairwise_iff (fun hab => FreeRect.separated_symm hab)).mp hpw
  obtain ⟨hf_rest, hrest⟩ := List.pairwise_cons.mp hcons
  rw [hfree', List.pairwise_append]
  refine ⟨splitFree_pairwise f p.w p.h, hrest, ?_⟩
  intro a ha b hb
  exact FreeRect.separated_of_subOf (splitFree_subOf h0w h0h hwle hhle a ha)
    (hf_rest b hb)

/-! Invariants of the packing loop. -/

theorem packLoop_box_pred {rotation : Bool} (P : FreeRect → Prop)
    (hmono : ∀ a b : FreeRect, a.subOf b → P b → P a) :
    ∀ (its : List Item) (free : List FreeRect),
      (∀ it ∈ its, 0 ≤ it.w ∧ 0 ≤ it.h) →
      (∀ f ∈ free, P f) →
      ∀ q ∈ packLoop rotation its free, P q.box := by
  intro its
  induction its with
  | nil => intro free _ _ q hq; simp [packLoop] at hq
  | cons it its ih =>
    intro free hdims hfree q hq
    rw [packLoop] at hq
    cases hp : place1 rotation it free with
    | none =>
      rw [hp] at hq
      exact ih free (fun i hi => hdims i (List.mem_cons_of_mem it hi)) hfree q hq
    | some pr =>
      obtain ⟨p, free'⟩ := pr
      rw [hp] at hq
      have h0 := hdims it (List.mem_cons_self it its)
      rcases List.mem_cons.mp hq with rfl | hq'
      · obtain ⟨f, hf, hsub⟩ := place1_pbox_subOf hp
        exact hmono _ f hsub (hfree f hf)
      · refine ih free' (fun i hi => hdims i (List.mem_cons_of_mem it hi)) ?_ q hq'
        intro g hg
        obtain ⟨f, hf, hsub⟩ := place1_free_subOf h0 hp g hg
        exact hmono g f hsub (hfree f hf)

theorem packLoop_pairwise {rotation : Bool} :
    ∀ (its : List Item) (free : List FreeRect),
      (∀ it ∈ its, 0 ≤ it.w ∧ 0 ≤ it.h) →
      free.Pairwise FreeRect.separated →
      (packLoop rotation its free).Pairwise
        (fun a b => a.box.separated b.box) := by
  intro its
  induction its with
  | nil => intro free _ _; simp [packLoop]
  | cons it its ih =>
    intro free hdims hpw
    rw [packLoop]
    cases hp : place1 rotation it free with
    | none => exact ih free (fun i hi => hdims i (List.mem_cons_of_mem it hi)) hpw
    | some pr =>
      obtain ⟨p, free'⟩ := pr
      have h0 := hdims it (List.mem_cons_self it its)
      have hdims' : ∀ i ∈ its, 0 ≤ i.w ∧ 0 ≤ i.h :=
        fun i hi => hdims i (List.mem_cons_of_mem it hi)
      refine List.Pairwise.cons ?_ (ih free' hdims' (place1_free_pairwise h0 hpw hp))
      intro q hq
      have hfree' : ∀ g ∈ free', g.separated p.box :=
        place1_free_separated_p hpw hp
      have := packLoop_box_pred (fun f => f.separated p.box)
        (fun a b hsub hb => FreeRect.separated_of_subOf hsub hb)
        its free' hdims' hfree' q hq
      exact FreeRect.separated_symm this

theorem packLoop_rids_sublist {rotation : Bool} :
    ∀ (its : List Item) (free : List FreeRect),
      ((packLoop rotation its free).map PlacedRect.rid).Sublist
        (its.map Item.id) := by
  intro its
  induction its with
  | nil => intro free; simp [packLoop]
  | cons it its ih =>
    intro free
    rw [packLoop]
    cases hp : place1 rotation it free with
    | none => exact List.Sublist.cons it.id (ih free)
    | some pr =>
      obtain ⟨p, free'⟩ := pr
      obtain ⟨f, rest, -, -, -, hrid, -⟩ := place1_spec hp
      rw [List.map_cons, List.map_cons, hrid]
      exact List.Sublist.cons₂ it.id (ih free')

theorem packLoop_dims {rotation : Bool} :
    ∀ (its : List Item) (free : List FreeRect),
      ∀ p ∈ packLoop rotation its free,
        ∃ it ∈ its, p.rid = it.id ∧
          ((p.w = it.w ∧ p.h = it.h) ∨ (p.w = it.h ∧ p.h = it.w)) := by
  intro its
  induction its with
  | nil => intro free p hp; simp [packLoop] at hp
  | cons it its ih =>
    intro free p hp
    rw [packLoop] at hp
    cases hpl : place1 rotation it free with
    | none =>
      rw [hpl] at hp
      obtain ⟨i, hi, h1, h2⟩ := ih free p hp
      exact ⟨i, List.mem_cons_of_mem it hi, h1, h2⟩
    | some pr =>
      obtain ⟨q, free'⟩ := pr
      rw [hpl] at hp
      rcases List.mem_cons.mp hp with rfl | hp'
      · obtain ⟨f, rest, -, -, -, hrid, hdim, -⟩ := place1_spec hpl
        exact ⟨it, List.mem_cons_self it its, hrid, hdim⟩
      · obtain ⟨i, hi, h1, h2⟩ := ih free' p hp'
        exact ⟨i, List.mem_cons_of_mem it hi, h1, h2⟩

/-! The sort is a permutation of the demand snapshot. -/

theorem insertByArea_perm (it : Item) (l : List Item) :
    (insertByArea it l).Perm (it :: l) := by
  induction l with
  | nil => exact List.Perm.refl _
  | cons x xs ih =>
    rw [insertByArea]
    by_cases hc : it.w * it.h < x.w * x.h
    · rw [if_pos hc]
      exact (ih.cons x).trans (List.Perm.swap it x xs)
    · rw [if_neg hc]

theorem sortAreaDesc_perm (items : List Item) :
    (sortAreaDesc items).Perm items := by
  induction items with
  | nil => exact List.Perm.refl _
  | cons x xs ih =>
    have : sortAreaDesc (x :: xs) = insertByArea x (sortAreaDesc xs) := rfl
    rw [this]
    exact (insertByArea_perm x (sortAreaDesc xs)).trans (ih.cons x)

/-! Structure of the result loop. -/

theorem buildResults_mem {items : List Item} :
    ∀ (rects : List PlacedRect) (ids : List Nat),
      ∀ rec ∈ (buildResults items rects ids).1,
        ∃ r ∈ rects, ∃ orig,
          List.find? (fun it => it.id == r.rid) items = some orig ∧
          rec = mkRecord orig r := by
  intro rects
  induction rects with
  | nil => intro ids rec hrec; simp [buildResults] at hrec
  | cons r rs ih =>
    intro ids rec hrec
    rw [buildResults] at hrec
    cases hfind : List.find? (fun it => it.id == r.rid) items with
    | none =>
      rw [hfind] at hrec
      obtain ⟨r', hr', horig⟩ := ih ids rec hrec
      exact ⟨r', List.mem_cons_of_mem r hr', horig⟩
    | some orig =>
      rw [hfind] at hrec
      simp only [List.mem_cons] at hrec
      rcases hrec with rfl | hrec'
      · exact ⟨r, List.mem_cons_self r rs, orig, hfind, rfl⟩
      · obtain ⟨r', hr', horig⟩ := ih _ rec hrec'
        exact ⟨r', List.mem_cons_of_mem r hr', horig⟩

theorem buildResults_ids_sublist {items : List Item} :
    ∀ (rects : List PlacedRect) (ids : List Nat),
      ((buildResults items rects ids).1.map Record.id).Sublist
        (rects.map PlacedRect.rid) := by
  intro rects
  induction rects with
  | nil => intro ids; simp [buildResults]
  | cons r rs ih =>
    intro ids
    rw [buildResults]
    cases hfind : List.find? (fun it => it.id == r.rid) items with
    | none =>
      exact List.Sublist.cons r.rid (ih ids)
    | some orig =>
      dsimp only
      simp only [List.map_cons]
      exact List.Sublist.cons₂ r.rid (ih _)

theorem buildResults_box_sublist {items : List Item} :
    ∀ (rects : List PlacedRect) (ids : List Nat),
      ((buildResults items rects ids).1.map Record.box).Sublist
        (rects.map PlacedRect.box) := by
  intro rects
  induction rects with
  | nil => intro ids; simp [buildResults]
  | cons r rs ih =>
    intro ids
    rw [buildResults]
    cases hfind : List.find? (fun it => it.id == r.rid) items with
    | none =>
      exact List.Sublist.cons r.box (ih ids)
    | some orig =>
      dsimp only
      simp only [List.map_cons]
      exact List.Sublist.cons₂ r.box (ih _)

theorem buildResults_ids_length {items : List Item} :
    ∀ (rects : List PlacedRect) (ids : List Nat),
      (∀ r ∈ rects, r.rid ∉ ids) →
      (rects.map PlacedRect.rid).Nodup →
      ((buildResults items rects ids).2.1).length =
        ids.length + ((buildResults items rects ids).1).length := by
  intro rects
  induction rects with
  | nil => intro ids _ _; simp [buildResults]
  | cons r rs ih =>
    intro ids hnotin hnodup
    rw [List.map_cons, List.nodup_cons] at hnodup
    obtain ⟨hr_notin_rs, hnodup_rs⟩ := hnodup
    rw [buildResults]
    cases hfind : List.find? (fun it => it.id == r.rid) items with
    | none =>
      exact ih ids (fun r' hr' => hnotin r' (List.mem_cons_of_mem r hr')) hnodup_rs
    | some orig =>
      dsimp only
      have hnotin_r := hnotin r (List.mem_cons_self r rs)
      have hcontains : ids.contains r.rid = false := by
        simpa using hnotin_r
      simp only [hcontains, Bool.false_eq_true, if_false]
      have hnotin' : ∀ r' ∈ rs, r'.rid ∉ ids ++ [r.rid] := by
        intro r' hr'
        rw [List.mem_append, List.mem_singleton]
        push_neg
        refine ⟨hnotin r' (List.mem_cons_of_mem r hr'), ?_⟩
        intro he
        exact hr_notin_rs (he ▸ List.mem_map_of_mem PlacedRect.rid hr')
      have := ih (ids ++ [r.rid]) hnotin' hnodup_rs
      simp only [List.length_append, List.length_singleton] at this
      simp only [List.length_cons]
      omega

theorem buildResults_area {items : List Item} :
    ∀ (rects : List PlacedRect) (ids : List Nat),
      (buildResults items rects ids).2.2 =
        (((buildResults items rects ids).1).map (fun rec =>
          (((List.find? (fun it => it.id == rec.id) items).map Item.area).getD 0))).sum := by
  intro rects
  induction rects with
  | nil => intro ids; simp [buildResults]
  | cons r rs ih =>
    intro ids
    rw [buildResults]
    cases hfind : List.find? (fun it => it.id == r.rid) items with
    | none =>
      exact ih ids
    | some orig =>
      dsimp only
      simp only [List.map_cons, List.sum_cons]
      have hid : (mkRecord orig r).id = r.rid := rfl
      rw [hid, hfind, ih]
      dsimp only [Option.map, Option.getD]
      ring

theorem find?_eq_of_nodup {items : List Item} {it : Item}
    (hnodup : (items.map Item.id).Nodup) (hmem : it ∈ items) :
    List.find? (fun i => i.id == it.id) items = some it := by
  induction items with
  | nil => simp at hmem
  | cons x xs ih =>
    rw [List.map_cons, List.nodup_cons] at hnodup
    obtain ⟨hx_notin, hnodup_xs⟩ := hnodup
    rcases List.mem_cons.mp hmem with rfl | hmem'
    · exact List.find?_cons_of_pos (p := fun (i : Item) => i.id == it.id) _ (by simp)
    · have hx : (x.id == it.id) ≠ true := by
        simp only [beq_iff_eq, ne_eq]
        intro he
        exact hx_notin (he ▸ List.mem_map_of_mem Item.id hmem')
      rw [List.find?_cons_of_neg (p := fun (i : Item) => i.id == it.id) _ hx]
      exact ih hnodup_xs hmem'

/-! Unfolding a successful solve. -/

theorem solve_nesting_ok {bin_w bin_h : ℚ} {items : List Item} {t : ℚ}
    {rep : Report}
    (hok : solve_nesting bin_w bin_h items t = Except.ok rep) :
    bin_w * bin_h ≠ 0 ∧
    rep.placed = (buildResults items (pack bin_w bin_h true items) []).1 ∧
    rep.unplaced_count = (items.length : ℤ) -
      ((buildResults items (pack bin_w bin_h true items) []).2.1).length ∧
    rep.efficiency =
      (buildResults items (pack bin_w bin_h true items) []).2.2 /
        (bin_w * bin_h) * 100 ∧
    rep.waste = 100 -
      (buildResults items (pack bin_w bin_h true items) []).2.2 /
        (bin_w * bin_h) * 100 ∧
    rep.time = t := by
  rw [solve_nesting] at hok
  by_cases hz : bin_w * bin_h = 0
  · rw [if_pos hz] at hok
    exact absurd hok (by simp)
  · rw [if_neg hz] at hok
    simp only [Except.ok.injEq] at hok
    subst hok
    exact ⟨hz, rfl, rfl, rfl, rfl, rfl⟩

/-! Sum of looked-up exact areas equals the sum over the placed instances. -/

theorem sum_lookup_eq :
    ∀ (items : List Item) (keys : List Nat),
      (items.map Item.id).Nodup → keys.Nodup →
      (∀ k ∈ keys, ∃ it ∈ items, it.id = k) →
      (keys.map (fun k =>
        (((List.find? (fun it => it.id == k) items).map Item.area).getD 0))).sum =
      ((items.filter (fun it => keys.contains it.id)).map Item.area).sum := by
  intro items
  induction items with
  | nil =>
    intro keys _ _ _
    simp [List.find?_nil]
  | cons x xs ih =>
    intro keys hnodup hknodup hsub
    rw [List.map_cons, List.nodup_cons] at hnodup
    obtain ⟨hx_notin, hnodup_xs⟩ := hnodup
    have hne_of_mem : ∀ it ∈ xs, it.id ≠ x.id := by
      intro it hit he
      exact hx_notin (he ▸ List.mem_map_of_mem Item.id hit)
    by_cases hk : x.id ∈ keys
    · have hperm : keys.Perm (x.id :: keys.erase x.id) := List.perm_cons_erase hk
      rw [(hperm.map _).sum_eq, List.map_cons, List.sum_cons]
      have hhead :
          ((List.find? (fun it => it.id == x.id) (x :: xs)).map Item.area).getD 0
            = x.area := by
        rw [List.find?_cons_of_pos (p := fun (it : Item) => it.id == x.id) _
          (by simp)]
        rfl
      have htail :
          ((keys.erase x.id).map (fun k =>
            (((List.find? (fun it => it.id == k) (x :: xs)).map Item.area).getD 0)))
          = ((keys.erase x.id).map (fun k =>
            (((List.find? (fun it => it.id == k) xs).map Item.area).getD 0))) := by
        refine List.map_congr_left ?_
        intro k hkmem
        have hkne : k ≠ x.id := (hknodup.mem_erase_iff.mp hkmem).1
        rw [List.find?_cons_of_neg (p := fun (it : Item) => it.id == k) _
          (by simp [hkne.symm])]
      rw [hhead, htail]
      have hsub' : ∀ k ∈ keys.erase x.id, ∃ it ∈ xs, it.id = k := by
        intro k hkmem
        obtain ⟨hkne, hkmem'⟩ := hknodup.mem_erase_iff.mp hkmem
        obtain ⟨it, hit, hid⟩ := hsub k hkmem'
        rcases List.mem_cons.mp hit with rfl | hit'
        · exact absurd hid (Ne.symm hkne)
        · exact ⟨it, hit', hid⟩
      rw [ih (keys.erase x.id) hnodup_xs (hknodup.erase x.id) hsub']
      have hfilter : (x :: xs).filter (fun it => keys.contains it.id) =
          x :: xs.filter (fun it => keys.contains it.id) := by
        rw [List.filter_cons_of_pos (by simpa using hk)]
      rw [hfilter, List.map_cons, List.sum_cons]
      have hfeq : xs.filter (fun it => keys.contains it.id) =
          xs.filter (fun it => (keys.erase x.id).contains it.id) := by
        refine List.filter_congr ?_
        intro it hit
        have hne := hne_of_mem it hit
        by_cases hin : it.id ∈ keys
        · have : it.id ∈ keys.erase x.id :=
            hknodup.mem_erase_iff.mpr ⟨hne, hin⟩
          simp [hin, this]
        · have : it.id ∉ keys.erase x.id := by
            intro hmem
            exact hin (hknodup.mem_erase_iff.mp hmem).2
          simp [hin, this]
      rw [hfeq]
    · have htail :
          (keys.map (fun k =>
            (((List.find? (fun it => it.id == k) (x :: xs)).map Item.area).getD 0)))
          = (keys.map (fun k =>
            (((List.find? (fun it => it.id == k) xs).map Item.area).getD 0))) := by
        refine List.map_congr_left ?_
        intro k hkmem
        have hkne : k ≠ x.id := fun he => hk (he ▸ hkmem)
        rw [List.find?_cons_of_neg (p := fun (it : Item) => it.id == k) _
          (by simp [hkne.symm])]
      have hsub' : ∀ k ∈ keys, ∃ it ∈ xs, it.id = k := by
        intro k hkmem
        obtain ⟨it, hit, hid⟩ := hsub k hkmem
        rcases List.mem_cons.mp hit with rfl | hit'
        · exact absurd (hid ▸ hkmem) hk
        · exact ⟨it, hit', hid⟩
      rw [htail, ih keys hnodup_xs hknodup hsub']
      have hfilter : (x :: xs).filter (fun it => keys.contains it.id) =
          xs.filter (fun it => keys.contains it.id) := by
        rw [List.filter_cons_of_neg (by simpa using hk)]
      rw [hfilter]

/-! Aggregate facts about a successful solve. -/

theorem pack_rids_nodup (bin_w bin_h : ℚ) {items : List Item}
    (hdist : (items.map Item.id).Nodup) :
    ((pack bin_w bin_h true items).map PlacedRect.rid).Nodup := by
  have hsub := @packLoop_rids_sublist true (sortAreaDesc items)
    [⟨0, 0, bin_w, bin_h⟩]
  have hperm : ((sortAreaDesc items).map Item.id).Perm (items.map Item.id) :=
    (sortAreaDesc_perm items).map Item.id
  exact hsub.nodup (hperm.nodup_iff.mpr hdist)

theorem pack_dims {bin_w bin_h : ℚ} {rotation : Bool} {items : List Item} :
    ∀ p ∈ pack bin_w bin_h rotation items,
      ∃ it ∈ items, p.rid = it.id ∧
        ((p.w = it.w ∧ p.h = it.h) ∨ (p.w = it.h ∧ p.h = it.w)) := by
  intro p hp
  obtain ⟨it, hit, h1, h2⟩ := packLoop_dims _ _ p hp
  exact ⟨it, (sortAreaDesc_perm items).mem_iff.mp hit, h1, h2⟩

theorem conservation_aux {bin_w bin_h t : ℚ} {items : List Item} {rep : Report}
    (hdist : (items.map Item.id).Nodup)
    (hok : solve_nesting bin_w bin_h items t = Except.ok rep) :
    (rep.placed.length : ℤ) + rep.unplaced_count = items.length := by
  obtain ⟨-, hplaced, hunplaced, -, -, -⟩ := solve_nesting_ok hok
  have hrids := pack_rids_nodup bin_w bin_h hdist
  have hlen := @buildResults_ids_length items
    (pack bin_w bin_h true items) [] (by intro r hr; simp) hrids
  rw [hplaced, hunplaced]
  simp only [List.length_nil, Nat.zero_add] at hlen
  omega

theorem placed_ids_nodup {bin_w bin_h t : ℚ} {items : List Item} {rep : Report}
    (hdist : (items.map Item.id).Nodup)
    (hok : solve_nesting bin_w bin_h items t = Except.ok rep) :
    (rep.placed.map Record.id).Nodup := by
  obtain ⟨-, hplaced, -⟩ := solve_nesting_ok hok
  rw [hplaced]
  exact (@buildResults_ids_sublist items
    (pack bin_w bin_h true items) []).nodup (pack_rids_nodup bin_w bin_h hdist)

theorem placed_id_has_instance {bin_w bin_h t : ℚ} {items : List Item}
    {rep : Report}
    (hok : solve_nesting bin_w bin_h items t = Except.ok rep) :
    ∀ rec ∈ rep.placed, ∃ it ∈ items, it.id = rec.id := by
  obtain ⟨-, hplaced, -⟩ := solve_nesting_ok hok
  intro rec hrec
  rw [hplaced] at hrec
  obtain ⟨r, hr, orig, hfind, rfl⟩ := buildResults_mem _ _ rec hrec
  refine ⟨orig, List.mem_of_find?_eq_some hfind, ?_⟩
  have := List.find?_some hfind
  simpa using this

theorem used_area_aux {bin_w bin_h t : ℚ} {items : List Item} {rep : Report}
    (hdist : (items.map Item.id).Nodup)
    (hok : solve_nesting bin_w bin_h items t = Except.ok rep) :
    rep.efficiency =
      100 * ((items.filter (fun it =>
        rep.placed.any (fun rec => rec.id == it.id))).map Item.area).sum /
        (bin_w * bin_h) ∧
    rep.waste = 100 - rep.efficiency := by
  obtain ⟨hz, hplaced, -, heff, hwaste, -⟩ := solve_nesting_ok hok
  have harea := @buildResults_area items
    (pack bin_w bin_h true items) []
  have hkeys_nodup : ((rep.placed.map Record.id)).Nodup :=
    placed_ids_nodup hdist hok
  have hsub : ∀ k ∈ rep.placed.map Record.id, ∃ it ∈ items, it.id = k := by
    intro k hk
    obtain ⟨rec, hrec, rfl⟩ := List.mem_map.mp hk
    exact placed_id_has_instance hok rec hrec
  have hbridge := sum_lookup_eq items (rep.placed.map Record.id)
    hdist hkeys_nodup hsub
  have hmapmap : ((rep.placed.map Record.id).map (fun k =>
      (((List.find? (fun it => it.id == k) items).map Item.area).getD 0))).sum =
      ((rep.placed.map (fun rec =>
      (((List.find? (fun it => it.id == rec.id) items).map Item.area).getD 0))).sum) := by
    rw [List.map_map]
    rfl
  have hfiltereq : (items.filter (fun it =>
      (rep.placed.map Record.id).contains it.id)) =
      (items.filter (fun it => rep.placed.any (fun rec => rec.id == it.id))) := by
    refine List.filter_congr ?_
    intro it hit
    rw [Bool.eq_iff_iff]
    simp only [List.any_eq_true, beq_iff_eq]
    constructor
    · intro hc
      obtain ⟨rec, hrec, hid⟩ := List.mem_map.mp (List.elem_iff.mp hc)
      exact ⟨rec, hrec, hid⟩
    · intro ⟨rec, hrec, hid⟩
      exact List.elem_iff.mpr (List.mem_map.mpr ⟨rec, hrec, hid⟩)
  constructor
  · rw [heff, harea, ← hplaced, ← hmapmap, hbridge, hfiltereq]
    ring
  · rw [hwaste, heff]

theorem pack_boxes_inBoard {bin_w bin_h : ℚ} {rotation : Bool}
    {items : List Item}
    (hdims : ∀ it ∈ items, 0 ≤ it.w ∧ 0 ≤ it.h) :
    ∀ p ∈ pack bin_w bin_h rotation items, p.box.inBoard bin_w bin_h := by
  intro p hp
  refine packLoop_box_pred (FreeRect.inBoard bin_w bin_h)
    (fun a b hsub hb => FreeRect.inBoard_of_subOf hsub hb)
    (sortAreaDesc items) [⟨0, 0, bin_w, bin_h⟩]
    (fun it hit => hdims it ((sortAreaDesc_perm items).mem_iff.mp hit)) ?_ p hp
  intro f hf
  rw [List.mem_singleton] at hf
  subst hf
  exact ⟨le_refl 0, le_refl 0, by simp, by simp⟩

theorem pack_boxes_pairwise {bin_w bin_h : ℚ} {rotation : Bool}
    {items : List Item}
    (hdims : ∀ it ∈ items, 0 ≤ it.w ∧ 0 ≤ it.h) :
    (pack bin_w bin_h rotation items).Pairwise
      (fun a b => a.box.separated b.box) := by
  refine packLoop_pairwise (sortAreaDesc items) [⟨0, 0, bin_w, bin_h⟩]
    (fun it hit => hdims it ((sortAreaDesc_perm items).mem_iff.mp hit)) ?_
  exact List.pairwise_singleton _ _

theorem containment_aux {bin_w bin_h t : ℚ} {items : List Item} {rep : Report}
    (hdims : ∀ it ∈ items, 0 ≤ it.w ∧ 0 ≤ it.h)
    (hok : solve_nesting bin_w bin_h items t = Except.ok rep) :
    ∀ rec ∈ rep.placed, rec.box.inBoard bin_w bin_h := by
  obtain ⟨-, hplaced, -⟩ := solve_nesting_ok hok
  intro rec hrec
  rw [hplaced] at hrec
  have hbox : rec.box ∈ (pack bin_w bin_h true items).map PlacedRect.box := by
    have hsubl := @buildResults_box_sublist items
      (pack bin_w bin_h true items) []
    exact hsubl.mem (List.mem_map_of_mem Record.box hrec)
  obtain ⟨r, hr, hreq⟩ := List.mem_map.mp hbox
  rw [← hreq]
  exact pack_boxes_inBoard hdims r hr

theorem no_overlap_aux {bin_w bin_h t : ℚ} {items : List Item} {rep : Report}
    (hdims : ∀ it ∈ items, 0 ≤ it.w ∧ 0 ≤ it.h)
    (hok : solve_nesting bin_w bin_h items t = Except.ok rep) :
    rep.placed.Pairwise (fun a b => a.box.separated b.box) := by
  obtain ⟨-, hplaced, -⟩ := solve_nesting_ok hok
  rw [hplaced]
  have hpair : ((pack bin_w bin_h true items).map PlacedRect.box).Pairwise
      FreeRect.separated :=
    List.pairwise_map.mpr (pack_boxes_pairwise hdims)
  have hsubl := @buildResults_box_sublist items
    (pack bin_w bin_h true items) []
  have := List.Pairwise.sublist hsubl hpair
  exact List.pairwise_map.mp this

theorem rotation_zero_of_square_bbox {bin_w bin_h t : ℚ} {items : List Item}
    {rep : Report}
    (hdist : (items.map Item.id).Nodup)
    (hok : solve_nesting bin_w bin_h items t = Except.ok rep) :
    ∀ rec ∈ rep.placed, ∀ it ∈ items, it.id = rec.id → it.w = it.h →
      rec.rotation = 0 := by
  obtain ⟨-, hplaced, -⟩ := solve_nesting_ok hok
  intro rec hrec it hit hid hwh
  rw [hplaced] at hrec
  obtain ⟨r, hr, orig, hfind, rfl⟩ := buildResults_mem _ _ rec hrec
  have horig_mem : orig ∈ items := List.mem_of_find?_eq_some hfind
  have horig_id : orig.id = r.rid := by
    have := List.find?_some hfind
    simpa using this
  have hid' : it.id = r.rid := hid
  have hit_orig : it = orig :=
    List.inj_on_of_nodup_map hdist hit horig_mem (by rw [hid', horig_id])
  obtain ⟨it2, hit2, hrid2, hdim2⟩ := pack_dims r hr
  have hit2_orig : it2 = orig :=
    List.inj_on_of_nodup_map hdist hit2 horig_mem (by rw [← hrid2, horig_id])
  have horig_wh : orig.w = orig.h := by rw [← hit_orig]; exact hwh
  have hrw : r.w = orig.w := by
    rcases hdim2 with ⟨e1, -⟩ | ⟨e1, -⟩
    · rw [e1, hit2_orig]
    · rw [e1, hit2_orig, horig_wh]
  show (mkRecord orig r).rotation = 0
  rw [mkRecord]
  simp [hrw]

/-! Record provenance: each placement record's shape kind comes from the
demand instance looked up by id. -/

theorem placed_record_source {bin_w bin_h t : ℚ} {items : List Item}
    {rep : Report}
    (hok : solve_nesting bin_w bin_h items t = Except.ok rep) :
    ∀ rec ∈ rep.placed, ∃ it ∈ items, it.id = rec.id ∧ it.type = rec.type := by
  obtain ⟨-, hplaced, -⟩ := solve_nesting_ok hok
  intro rec hrec
  rw [hplaced] at hrec
  obtain ⟨r, hr, orig, hfind, rfl⟩ := buildResults_mem _ _ rec hrec
  refine ⟨orig, List.mem_of_find?_eq_some hfind, ?_, rfl⟩
  have := List.find?_some hfind
  simpa using this

/-! Concrete demand lists and reports used in the claim instances. -/

/-- Demand of Scenario C (spec §8): a 480 × 100 rectangle with rotation
allowed followed by a 100 × 480 rectangle with rotation disallowed. -/
def itemsC1 : List Item :=
  ((add_item Shape.Rectangle (Dims.rect 480 100) 1 true (fun _ => 0)).getD []) ++
  ((add_item Shape.Rectangle (Dims.rect 100 480) 1 false (fun _ => 1)).getD [])

def rec0C1 : Record :=
  { id := 0, type := Shape.Rectangle, x := 0, y := 0, w_box := 480,
    h_box := 100, rotation := 0, color := "#3B82F6", dims := Dims.rect 480 100 }

def rec1C1 : Record :=
  { id := 1, type := Shape.Rectangle, x := 0, y := 100, w_box := 480,
    h_box := 100, rotation := 90, color := "#3B82F6", dims := Dims.rect 100 480 }

def reportC1 : Report :=
  { placed := [rec0C1, rec1C1], unplaced_count := 0, efficiency := 192/5,
    waste := 308/5, time := 0 }

/-- The second demand item of `itemsC1`: rotation disallowed. -/
def itemB1 : Item :=
  { id := 1, type := Shape.Rectangle, dims := Dims.rect 100 480,
    w := 100, h := 480, area := 48000, allow_rotation := false,
    color := "#3B82F6" }

/-- C1 (the code violates the claim): `solve_nesting` hands the packer a
global `rotation=True` and never forwards the per-item `allow_rotation`
flag, so on the Scenario C demand the 100 × 480 item with
`allow_rotation = false`, whose natural orientation does not fit the
remaining free space, is placed rotated and exported with rotation 90. -/
theorem c1_rotation_disallowed_item_is_rotated :
    (itemB1 ∈ itemsC1 ∧ itemB1.id = 1 ∧ itemB1.allow_rotation = false ∧
      itemB1.w = 100 ∧ itemB1.h = 480) ∧
    solve_nesting 500 500 itemsC1 0 = Except.ok reportC1 ∧
    rec1C1 ∈ reportC1.placed ∧ rec1C1.id = 1 ∧ rec1C1.rotation = 90 := by
  refine ⟨⟨?_, rfl, rfl, rfl, rfl⟩, ?_, by simp [reportC1], rfl, rfl⟩
  · norm_num [itemsC1, itemB1, add_item, bboxAndArea, colorMap,
      List.range_succ, List.range_zero]
  · norm_num [itemsC1, reportC1, rec0C1, rec1C1, add_item, bboxAndArea,
      colorMap, List.range_succ, List.range_zero, solve_nesting, pack,
      packLoop, sortAreaDesc, insertByArea, place1, findRegion, splitFree,
      buildResults, mkRecord]

/-- C2 counterexample: a board with negative width (a non-positive width,
as the claim quantifies) does not fail at all — `solve_nesting` returns a
complete report, refuting both the `InvalidBoard` failure and the
"no report returned" part of the claim. -/
theorem c2_counterexample :
    solve_nesting (-10) 1220 [] 0 =
      Except.ok { placed := [], unplaced_count := 0, efficiency := 0,
                  waste := 100, time := 0 } := by
  norm_num [solve_nesting, pack, packLoop, sortAreaDesc, buildResults]

/-- C2 amended: the engine has no board validation; the call fails only
when the board area `bin_w * bin_h` is zero, with the Python
`ZeroDivisionError` raised while the efficiency statistic is computed
(after packing has run), and then no report is returned. -/
theorem c2_zero_area_board_raises_division_error
    (bin_w bin_h t : ℚ) (items : List Item) (hz : bin_w * bin_h = 0) :
    solve_nesting bin_w bin_h items t =
      Except.error SolveError.zeroDivisionError := by
  simp [solve_nesting, hz]

theorem c2_witness :
    solve_nesting 0 1220 [] 0 = Except.error SolveError.zeroDivisionError :=
  c2_zero_area_board_raises_division_error 0 1220 0 [] (by norm_num)

/-- C3 counterexample: two solves of the identical board and demand but
observed at different wall-clock durations return different reports — the
`time` statistic is a clock measurement, not a function of the input. -/
theorem c3_counterexample :
    solve_nesting 100 100 [] 0 ≠ solve_nesting 100 100 [] 1 := by
  norm_num [solve_nesting, pack, packLoop, sortAreaDesc, buildResults]

/-- C3 amended: for a fixed board and demand the solve is deterministic in
every report field except `time`: placements (same records in the same
order), unplaced count, efficiency and waste coincide across invocations,
while `time` merely echoes the wall-clock measurement of each run. -/
theorem c3_deterministic_except_time (bin_w bin_h t1 t2 : ℚ)
    (items : List Item) (rep1 rep2 : Report)
    (h1 : solve_nesting bin_w bin_h items t1 = Except.ok rep1)
    (h2 : solve_nesting bin_w bin_h items t2 = Except.ok rep2) :
    rep1.placed = rep2.placed ∧ rep1.unplaced_count = rep2.unplaced_count ∧
    rep1.efficiency = rep2.efficiency ∧ rep1.waste = rep2.waste ∧
    rep1.time = t1 ∧ rep2.time = t2 := by
  obtain ⟨-, p1, u1, e1, w1, m1⟩ := solve_nesting_ok h1
  obtain ⟨-, p2, u2, e2, w2, m2⟩ := solve_nesting_ok h2
  refine ⟨?_, ?_, ?_, ?_, m1, m2⟩
  · rw [p1, p2]
  · rw [u1, u2]
  · rw [e1, e2]
  · rw [w1, w2]

def reportT0 : Report :=
  { placed := [], unplaced_count := 0, efficiency := 0, waste := 100,
    time := 0 }

def reportT1 : Report :=
  { placed := [], unplaced_count := 0, efficiency := 0, waste := 100,
    time := 1 }

theorem c3_witness :
    reportT0.placed = reportT1.placed ∧
    reportT0.unplaced_count = reportT1.unplaced_count ∧
    reportT0.efficiency = reportT1.efficiency ∧
    reportT0.waste = reportT1.waste ∧
    reportT0.time = 0 ∧ reportT1.time = 1 :=
  c3_deterministic_except_time 100 100 0 1 [] reportT0 reportT1
    (by norm_num [solve_nesting, pack, packLoop, sortAreaDesc, buildResults,
      reportT0])
    (by norm_num [solve_nesting, pack, packLoop, sortAreaDesc, buildResults,
      reportT1])

/-- C4: conservation — every demand instance is either placed or counted
unplaced: the number of placement records plus the reported
`unplaced_count` equals the demand size, whenever the instance
identifiers are pairwise distinct. -/
theorem c4_conservation (bin_w bin_h t : ℚ) (items : List Item)
    (rep : Report) (hdist : (items.map Item.id).Nodup)
    (hok : solve_nesting bin_w bin_h items t = Except.ok rep) :
    (rep.placed.length : ℤ) + rep.unplaced_count = items.length :=
  conservation_aux hdist hok

def itemA4 : Item :=
  { id := 0, type := Shape.Rectangle, dims := Dims.rect 80 80,
    w := 80, h := 80, area := 6400, allow_rotation := true,
    color := "#3B82F6" }

def itemB4 : Item :=
  { id := 1, type := Shape.Rectangle, dims := Dims.rect 90 90,
    w := 90, h := 90, area := 8100, allow_rotation := true,
    color := "#3B82F6" }

def itemsC4 : List Item := [itemA4, itemB4]

def recB4 : Record :=
  { id := 1, type := Shape.Rectangle, x := 0, y := 0, w_box := 90,
    h_box := 90, rotation := 0, color := "#3B82F6",
    dims := Dims.rect 90 90 }

def reportC4 : Report :=
  { placed := [recB4], unplaced_count := 1, efficiency := 81, waste := 19,
    time := 0 }

theorem c4_witness :
    (reportC4.placed.length : ℤ) + reportC4.unplaced_count =
      (itemsC4.length : ℤ) :=
  c4_conservation 100 100 0 itemsC4 reportC4
    (by simp [itemsC4, itemA4, itemB4])
    (by norm_num [itemsC4, itemA4, itemB4, reportC4, recB4, solve_nesting, pack,
      packLoop, sortAreaDesc, insertByArea, place1, findRegion, splitFree,
      buildResults, mkRecord])

/-- C5: `used_area` is the sum of `exact_area` over exactly the placed
instances (the demand items some placement record refers to), and
utilization and waste are derived from it against the full board area:
`efficiency = 100·used_area/(bin_w·bin_h)` and
`waste = 100 − efficiency`. -/
theorem c5_used_area_exact (bin_w bin_h t : ℚ) (items : List Item)
    (rep : Report) (hdist : (items.map Item.id).Nodup)
    (hok : solve_nesting bin_w bin_h items t = Except.ok rep) :
    rep.efficiency = 100 * ((items.filter (fun it =>
        rep.placed.any (fun rec => rec.id == it.id))).map Item.area).sum /
      (bin_w * bin_h) ∧
    rep.waste = 100 - rep.efficiency :=
  used_area_aux hdist hok

def itemC5 : Item :=
  { id := 0, type := Shape.Rectangle, dims := Dims.rect 50 50,
    w := 50, h := 50, area := 2500, allow_rotation := true,
    color := "#3B82F6" }

def itemsC5 : List Item := [itemC5]

def recC5 : Record :=
  { id := 0, type := Shape.Rectangle, x := 0, y := 0, w_box := 50,
    h_box := 50, rotation := 0, color := "#3B82F6",
    dims := Dims.rect 50 50 }

def reportC5 : Report :=
  { placed := [recC5], unplaced_count := 0, efficiency := 25, waste := 75,
    time := 0 }

theorem c5_witness :
    reportC5.efficiency = 100 * ((itemsC5.filter (fun it =>
        reportC5.placed.any (fun rec => rec.id == it.id))).map Item.area).sum /
      (100 * 100) ∧
    reportC5.waste = 100 - reportC5.efficiency :=
  c5_used_area_exact 100 100 0 itemsC5 reportC5
    (by simp [itemsC5, itemC5])
    (by norm_num [itemsC5, itemC5, reportC5, recC5, solve_nesting, pack, packLoop,
      sortAreaDesc, insertByArea, place1, findRegion, splitFree,
      buildResults, mkRecord])

/-- C6: every placement record lies within the board and the bounding
boxes of any two records in one report have zero intersection area. -/
theorem c6_containment_and_no_overlap (bin_w bin_h t : ℚ)
    (items : List Item) (rep : Report)
    (hdims : ∀ it ∈ items, 0 ≤ it.w ∧ 0 ≤ it.h)
    (hok : solve_nesting bin_w bin_h items t = Except.ok rep) :
    (∀ rec ∈ rep.placed, 0 ≤ rec.x ∧ 0 ≤ rec.y ∧
      rec.x + rec.w_box ≤ bin_w ∧ rec.y + rec.h_box ≤ bin_h) ∧
    rep.placed.Pairwise (fun a b => overlapArea a.box b.box = 0) := by
  refine ⟨?_, ?_⟩
  · intro rec hrec
    exact containment_aux hdims hok rec hrec
  · exact (no_overlap_aux hdims hok).imp
      (fun h => overlapArea_eq_zero_of_separated h)

def itemA6 : Item :=
  { id := 0, type := Shape.Rectangle, dims := Dims.rect 50 50,
    w := 50, h := 50, area := 2500, allow_rotation := true,
    color := "#3B82F6" }

def itemB6 : Item :=
  { id := 1, type := Shape.Rectangle, dims := Dims.rect 30 30,
    w := 30, h := 30, area := 900, allow_rotation := true,
    color := "#3B82F6" }

def itemsC6 : List Item := [itemA6, itemB6]

def recB6 : Record :=
  { id := 1, type := Shape.Rectangle, x := 50, y := 0, w_box := 30,
    h_box := 30, rotation := 0, color := "#3B82F6",
    dims := Dims.rect 30 30 }

def recA6 : Record :=
  { id := 0, type := Shape.Rectangle, x := 0, y := 0, w_box := 50,
    h_box := 50, rotation := 0, color := "#3B82F6",
    dims := Dims.rect 50 50 }

def reportC6 : Report :=
  { placed := [recA6, recB6], unplaced_count := 0, efficiency := 34,
    waste := 66, time := 0 }

theorem c6_witness :
    0 ≤ recB6.x ∧ 0 ≤ recB6.y ∧ recB6.x + recB6.w_box ≤ 100 ∧
      recB6.y + recB6.h_box ≤ 100 :=
  (c6_containment_and_no_overlap 100 100 0 itemsC6 reportC6
    (by norm_num [itemsC6, itemA6, itemB6])
    (by norm_num [itemsC6, itemA6, itemB6, reportC6, recA6, recB6, solve_nesting,
      pack, packLoop, sortAreaDesc, insertByArea, place1, findRegion,
      splitFree, buildResults, mkRecord])).1 recB6 (by simp [reportC6])

/-- C7 counterexample: the circle item built by `add_item` with radius 1
stores `exact_area = 3.14159` — the fixed decimal constant of
src/app.py line 95 — which is not the true geometric circle area
`π·1²`. -/
theorem c7_counterexample :
    ((add_item Shape.Circle (Dims.circle 1) 1 false (fun _ => 0)).map
      (fun its => its.map Item.area)) = some [3.14159] ∧
    ((3.14159 : ℚ) : ℝ) ≠ Real.pi * 1 ^ 2 := by
  constructor
  · norm_num [add_item, bboxAndArea, List.range_succ, List.range_zero]
  · intro he
    have h1 : Real.pi = ((3.14159 : ℚ) : ℝ) := by rw [he]; ring
    have hpi := Real.pi_gt_d6
    rw [h1] at hpi
    norm_num at hpi

/-- C7 amended: every circle demand instance with radius `r > 0` stores
`exact_area = 3.14159·r²` (a fixed rational approximation of `π·r²`, not
the exact value), its bounding box is `2r × 2r`, both box dimensions are
positive, and the invariant `exact_area ≤ bbox_w·bbox_h` holds. -/
theorem c7_circle_item_area (r : ℚ) (qty : Nat) (rot : Bool)
    (uids : Nat → Nat) (its : List Item) (hr : 0 < r)
    (hadd : add_item Shape.Circle (Dims.circle r) qty rot uids = some its) :
    ∀ it ∈ its, it.area = 3.14159 * r ^ 2 ∧ it.w = 2 * r ∧ it.h = 2 * r ∧
      0 < it.w ∧ 0 < it.h ∧ it.area ≤ it.w * it.h := by
  rw [add_item] at hadd
  simp only [bboxAndArea, Option.map, Option.some.injEq] at hadd
  subst hadd
  intro it hit
  obtain ⟨i, hi, rfl⟩ := List.mem_map.mp hit
  refine ⟨rfl, by show r * 2 = 2 * r; ring, by show r * 2 = 2 * r; ring,
    by show (0 : ℚ) < r * 2; linarith, by show (0 : ℚ) < r * 2; linarith, ?_⟩
  show (3.14159 : ℚ) * r ^ 2 ≤ r * 2 * (r * 2)
  nlinarith [sq_nonneg r]

def itemC7 : Item :=
  { id := 0, type := Shape.Circle, dims := Dims.circle 1,
    w := 2, h := 2, area := 3.14159, allow_rotation := false,
    color := "#F59E0B" }

theorem c7_witness :
    itemC7.area = 3.14159 * 1 ^ 2 ∧ itemC7.w = 2 * 1 ∧ itemC7.h = 2 * 1 ∧
    0 < itemC7.w ∧ 0 < itemC7.h ∧ itemC7.area ≤ itemC7.w * itemC7.h :=
  c7_circle_item_area 1 1 false (fun _ => 0) [itemC7] (by norm_num)
    (by norm_num [add_item, bboxAndArea, List.range_succ, List.range_zero,
      itemC7, colorMap])
    itemC7 (List.mem_singleton.mpr rfl)

/-- C8: no placement record of Square kind is ever exported rotated:
Square instances are stored with equal bounding-box sides, the packer can
only place such a box with its original width, and the rotation detector
compares widths, so the record's rotation is 0. -/
theorem c8_square_never_rotated (bin_w bin_h t : ℚ) (items : List Item)
    (rep : Report) (hdist : (items.map Item.id).Nodup)
    (hsq : ∀ it ∈ items, it.type = Shape.Square → it.w = it.h)
    (hok : solve_nesting bin_w bin_h items t = Except.ok rep) :
    ∀ rec ∈ rep.placed, rec.type = Shape.Square → rec.rotation = 0 := by
  intro rec hrec htype
  obtain ⟨it, hit, hid, hty⟩ := placed_record_source hok rec hrec
  exact rotation_zero_of_square_bbox hdist hok rec hrec it hit hid
    (hsq it hit (by rw [hty, htype]))

def itemC8 : Item :=
  { id := 0, type := Shape.Square, dims := Dims.rect 50 50,
    w := 50, h := 50, area := 2500, allow_rotation := true,
    color := "#10B981" }

def itemsC8 : List Item := [itemC8]

def recC8 : Record :=
  { id := 0, type := Shape.Square, x := 0, y := 0, w_box := 50,
    h_box := 50, rotation := 0, color := "#10B981",
    dims := Dims.rect 50 50 }

def reportC8 : Report :=
  { placed := [recC8], unplaced_count := 0, efficiency := 25, waste := 75,
    time := 0 }

theorem c8_witness : recC8.rotation = 0 :=
  c8_square_never_rotated 100 100 0 itemsC8 reportC8
    (by simp [itemsC8, itemC8])
    (by intro it hit hty; simp [itemsC8, itemC8] at hit; rw [hit])
    (by norm_num [itemsC8, itemC8, reportC8, recC8, solve_nesting, pack,
      packLoop, sortAreaDesc, insertByArea, place1, findRegion, splitFree,
      buildResults, mkRecord])
    recC8 (by simp [reportC8]) rfl

/-- C9: solving an empty demand list on a positive board succeeds with an
empty placement list, `unplaced_count = 0`, `efficiency = 0` and
`waste = 100`. -/
theorem c9_empty_demand (bin_w bin_h t : ℚ) (hw : 0 < bin_w)
    (hh : 0 < bin_h) :
    solve_nesting bin_w bin_h [] t =
      Except.ok { placed := [], unplaced_count := 0, efficiency := 0,
                  waste := 100, time := t } := by
  have hz : bin_w * bin_h ≠ 0 := ne_of_gt (mul_pos hw hh)
  norm_num [solve_nesting, pack, packLoop, sortAreaDesc, buildResults, hz]

theorem c9_witness :
    solve_nesting 100 100 [] 0 =
      Except.ok { placed := [], unplaced_count := 0, efficiency := 0,
                  waste := 100, time := 0 } :=
  c9_empty_demand 100 100 0 (by norm_num) (by norm_num)

/-- C10: a placement record whose source instance has a square bounding
box (equal stored width and height — in particular every Circle instance,
whose box is `2r × 2r`) is always exported with rotation 0, because the
packer can only hand back that box with its original width and rotation is
detected by comparing widths. -/
theorem c10_square_bbox_never_rotated (bin_w bin_h t : ℚ)
    (items : List Item) (rep : Report)
    (hdist : (items.map Item.id).Nodup)
    (hok : solve_nesting bin_w bin_h items t = Except.ok rep) :
    ∀ rec ∈ rep.placed, ∀ it ∈ items, it.id = rec.id → it.w = it.h →
      rec.rotation = 0 :=
  rotation_zero_of_square_bbox hdist hok

def itemC10 : Item :=
  { id := 0, type := Shape.Circle, dims := Dims.circle 10,
    w := 20, h := 20, area := 314159/1000, allow_rotation := false,
    color := "#F59E0B" }

def itemsC10 : List Item := [itemC10]

def recC10 : Record :=
  { id := 0, type := Shape.Circle, x := 0, y := 0, w_box := 20,
    h_box := 20, rotation := 0, color := "#F59E0B",
    dims := Dims.circle 10 }

def reportC10 : Report :=
  { placed := [recC10], unplaced_count := 0,
    efficiency := 314159/100000, waste := 9685841/100000, time := 0 }

theorem c10_witness : recC10.rotation = 0 :=
  c10_square_bbox_never_rotated 100 100 0 itemsC10 reportC10
    (by simp [itemsC10, itemC10])
    (by norm_num [itemsC10, itemC10, reportC10, recC10, solve_nesting, pack,
      packLoop, sortAreaDesc, insertByArea, place1, findRegion, splitFree,
      buildResults, mkRecord])
    recC10 (by simp [reportC10]) itemC10 (by simp [itemsC10]) rfl rfl
